import Mathlib

/-!
Verification of the `native/bubblegum` transaction-assembly pipeline.

The development shallowly embeds `src/native/bubblegum/src/lib.rs`: the error
enum, the base-58 address codec, keypair parsing, metadata translation, the
transaction submitter, and the three operation orchestrators
(`create_tree_config`, `mint_to_collection_v1`, `transfer`).

Machine integers (`u8`/`u16`/`u32`/`u64`) are modelled as `Nat`; the code
performs no arithmetic on them, so no overflow reduction is needed.  Byte
strings are `List Nat` with explicit `< 256` bounds where they matter.
External library calls (the base-58 codec, `Pubkey::from_str`,
`Keypair::from_bytes`, the instruction builders, the transaction type and the
RPC client) are not part of the repository; they are modelled from the spec,
as marked on each definition.  The remote node is modelled as an oracle
(`RpcClient`) recording the responses the node would give, and the network
effects of a run are made observable as an explicit `Event` trace.  A Rust
`panic` (from `unwrap()`) is modelled as the `RunOutcome.panicked` outcome,
distinct from every returned value.
-/

namespace Bubblegum

/-- The `BubblegumError` enum of the source, one constructor per variant,
each carrying its message string. -/
inductive BubblegumError where
  | InvalidPublicKey (msg : String)
  | InvalidKeypair (msg : String)
  | SolanaClientError (msg : String)
  | TransactionError (msg : String)
  | SerializationError (msg : String)
deriving DecidableEq

/-- The `thiserror`-derived `Display` rendering of `BubblegumError`
(`e.to_string()` in the source). -/
def errMessage : BubblegumError → String
  | .InvalidPublicKey m => "Invalid public key: " ++ m
  | .InvalidKeypair m => "Invalid keypair: " ++ m
  | .SolanaClientError m => "Solana client error: " ++ m
  | .TransactionError m => "Transaction error: " ++ m
  | .SerializationError m => "Serialization error: " ++ m

/-- Outcome of running a piece of Rust code that may panic: either a panic
with its message, or the returned value. -/
inductive RunOutcome (α : Type) where
  | panicked (msg : String)
  | ret (val : α)
deriving DecidableEq

/-- Modelled from the spec (§3): the base-58 alphabet of the external codec
(the bitcoin alphabet used by the `bs58` crate: `0`, `O`, `I`, `l` excluded). -/
def base58Alphabet : List Char :=
  ['1', '2', '3', '4', '5', '6', '7', '8', '9',
   'A', 'B', 'C', 'D', 'E', 'F', 'G', 'H', 'J', 'K', 'L', 'M', 'N', 'P',
   'Q', 'R', 'S', 'T', 'U', 'V', 'W', 'X', 'Y', 'Z',
   'a', 'b', 'c', 'd', 'e', 'f', 'g', 'h', 'i', 'j', 'k', 'm', 'n', 'o',
   'p', 'q', 'r', 's', 't', 'u', 'v', 'w', 'x', 'y', 'z']

/-- Value of one base-58 character; `none` on a character outside the
alphabet. -/
def b58val (c : Char) : Option Nat :=
  base58Alphabet.findIdx? (fun a => a == c)

/-- Character for one base-58 digit (digits are `< 58`). -/
def b58chr (d : Nat) : Char :=
  base58Alphabet.getD d ' '

/-- Big-endian digits of `n` in base `b`, with explicit fuel so that the
recursion is structural (the fuel `n` always suffices). -/
def natDigitsBEAux (b : Nat) : Nat → Nat → List Nat
  | _, 0 => []
  | 0, _ + 1 => []
  | fuel + 1, n + 1 => natDigitsBEAux b fuel ((n + 1) / b) ++ [(n + 1) % b]

/-- Big-endian digits of `n` in base `b` (empty for `n = 0`). -/
def natDigitsBE (b n : Nat) : List Nat :=
  natDigitsBEAux b n n

/-- Big-endian value of a digit list in base `b`. -/
def beVal (b : Nat) (l : List Nat) : Nat :=
  l.foldl (fun acc d => acc * b + d) 0

/-- Decode a character list to base-58 digit values; `none` as soon as one
character is invalid. -/
def decodeChars : List Char → Option (List Nat)
  | [] => some []
  | c :: cs =>
    match b58val c with
    | none => none
    | some d => (decodeChars cs).map (fun ds => d :: ds)

/-- Modelled from the spec (§3, §4.1): the external `bs58` decode
(`bs58::decode(s).into_vec()`): every character must be in the alphabet; the
digit string is read as one big-endian base-58 number and converted to bytes,
with one leading zero byte per leading `1` character. -/
def bs58Decode (s : String) : Option (List Nat) :=
  match decodeChars s.toList with
  | none => none
  | some ds =>
    some (List.replicate (ds.takeWhile (fun d => d == 0)).length 0 ++
          natDigitsBE 256 (beVal 58 ds))

/-- Modelled from the spec (§3): the external base-58 encoding (textual form
of an address, `Pubkey::to_string`): one `1` character per leading zero byte,
then the big-endian base-58 digits of the remaining value. -/
def bs58Encode (bytes : List Nat) : String :=
  String.mk (List.replicate (bytes.takeWhile (fun x => x == 0)).length '1' ++
             (natDigitsBE 58 (beVal 256 bytes)).map b58chr)

/-- An address: 32 bytes (spec §3).  Carried as a plain byte list; the
32-byte length is established by parsing. -/
abbrev Pubkey := List Nat

deriving instance DecidableEq for Except

/-- `parse_pubkey` of the source.  The wrapped `Pubkey::from_str` is external
and is modelled from the spec (§4.1): base-58 decode, then the decoded byte
length must equal the fixed 32-byte address size; either failure is
classified `InvalidPublicKey` with the codec message embedded. -/
def parse_pubkey (pubkey_str : String) : Except BubblegumError Pubkey :=
  match bs58Decode pubkey_str with
  | none => .error (.InvalidPublicKey "invalid base58 string")
  | some bytes =>
    if bytes.length = 32 then .ok bytes
    else .error (.InvalidPublicKey "string is the wrong size")

/-- A signing key pair (spec §3): secret and public halves. -/
structure Keypair where
  secret : List Nat
  public : List Nat
deriving DecidableEq

/-- `pubkey()` of a keypair. -/
def Keypair.pubkey (k : Keypair) : Pubkey := k.public

/-- `parse_keypair` of the source.  The wrapped `Keypair::from_bytes` is
external and is modelled from the spec (§4.1): the 64 raw bytes are the
32-byte secret followed by the 32-byte public half; a wrong byte length is a
classified `InvalidKeypair` failure.  The external curve-point validity check
of the ed25519 library is not reimplementable here and is modelled as the
length check the spec guarantees. -/
def parse_keypair (keypair_bytes : List Nat) : Except BubblegumError Keypair :=
  if keypair_bytes.length = 64 then
    .ok { secret := keypair_bytes.take 32, public := keypair_bytes.drop 32 }
  else
    .error (.InvalidKeypair "signature error: Keypair must be 64 bytes")

/-- `bs58::decode(s).into_vec()` at the orchestrator call sites: the decoded
bytes, or the codec error message. -/
def bs58IntoVec (s : String) : Except String (List Nat) :=
  match bs58Decode s with
  | none => .error "provided string contained an invalid character"
  | some v => .ok v

/-! ### Bridge lemmas for the base-58 codec -/

theorem natDigitsBEAux_eq_digits (b : Nat) (hb : 2 ≤ b) :
    ∀ fuel n, n ≤ fuel → natDigitsBEAux b fuel n = (Nat.digits b n).reverse := by
  intro fuel
  induction fuel with
  | zero =>
    intro n hn
    interval_cases n
    simp [natDigitsBEAux]
  | succ f ih =>
    intro n hn
    match n with
    | 0 => simp [natDigitsBEAux]
    | m + 1 =>
      have hdiv : (m + 1) / b < m + 1 := Nat.div_lt_self (Nat.succ_pos m) hb
      have h1 : natDigitsBEAux b (f + 1) (m + 1) =
          natDigitsBEAux b f ((m + 1) / b) ++ [(m + 1) % b] := rfl
      rw [h1, ih ((m + 1) / b) (by omega),
          Nat.digits_def' (by omega : 1 < b) (Nat.succ_pos m)]
      simp

theorem natDigitsBE_eq_digits (b n : Nat) (hb : 2 ≤ b) :
    natDigitsBE b n = (Nat.digits b n).reverse :=
  natDigitsBEAux_eq_digits b hb n n (le_refl n)

theorem foldl_beVal (b : Nat) : ∀ (l : List Nat) (acc : Nat),
    l.foldl (fun a d => a * b + d) acc =
      Nat.ofDigits b l.reverse + acc * b ^ l.length := by
  intro l
  induction l with
  | nil => intro acc; simp
  | cons d t ih =>
    intro acc
    rw [List.foldl_cons, ih, List.reverse_cons, Nat.ofDigits_append]
    simp only [Nat.ofDigits_singleton, List.length_reverse, List.length_cons]
    ring

theorem beVal_eq_ofDigits (b : Nat) (l : List Nat) :
    beVal b l = Nat.ofDigits b l.reverse := by
  unfold beVal
  rw [foldl_beVal b l 0]
  simp

theorem beVal_natDigitsBE (b n : Nat) (hb : 2 ≤ b) :
    beVal b (natDigitsBE b n) = n := by
  rw [beVal_eq_ofDigits, natDigitsBE_eq_digits b n hb, List.reverse_reverse,
      Nat.ofDigits_digits]

theorem natDigitsBE_lt (b n : Nat) (hb : 2 ≤ b) :
    ∀ d ∈ natDigitsBE b n, d < b := by
  intro d hd
  rw [natDigitsBE_eq_digits b n hb, List.mem_reverse] at hd
  exact Nat.digits_lt_base (by omega) hd

theorem getLast_reverse_of_head (l : List Nat) (a : Nat) (t : List Nat)
    (hl : l = a :: t) (h : l.reverse ≠ []) : l.reverse.getLast h = a := by
  subst hl
  simp

theorem natDigitsBE_beVal (l : List Nat) (hlt : ∀ x ∈ l, x < 256)
    (hhead : l = [] ∨ l.headD 0 ≠ 0) : natDigitsBE 256 (beVal 256 l) = l := by
  rw [beVal_eq_ofDigits, natDigitsBE_eq_digits 256 _ (by omega),
      Nat.digits_ofDigits 256 (by omega) l.reverse
        (by intro x hx; exact hlt x (List.mem_reverse.mp hx))
        (by
          intro h
          rcases hhead with h0 | h0
          · subst h0; simp at h
          · match l, h0 with
            | a :: t, h0 =>
              rw [getLast_reverse_of_head (a :: t) a t rfl h]
              simpa using h0),
      List.reverse_reverse]

theorem beVal_replicate_zero_append (b k : Nat) (l : List Nat) :
    beVal b (List.replicate k 0 ++ l) = beVal b l := by
  induction k with
  | zero => rfl
  | succ n ih => simpa [beVal, List.replicate_succ] using ih

theorem takeWhile_replicate_zero_append (k d : Nat) (hd : d ≠ 0) (ds : List Nat) :
    (List.replicate k 0 ++ d :: ds).takeWhile (fun x => x == 0) =
      List.replicate k 0 := by
  induction k with
  | zero => simp [List.takeWhile_cons, hd]
  | succ n ih => simp [List.replicate_succ, List.takeWhile_cons, ih]

theorem takeWhile_replicate_zero (k : Nat) :
    (List.replicate k (0 : Nat)).takeWhile (fun x => x == 0) =
      List.replicate k 0 := by
  induction k with
  | zero => rfl
  | succ n ih => simp [List.replicate_succ, List.takeWhile_cons, ih]

theorem dropWhile_head_false (p : Nat → Bool) :
    ∀ (l : List Nat) (a : Nat) (t : List Nat),
      l.dropWhile p = a :: t → p a = false := by
  intro l
  induction l with
  | nil => intro a t h; simp [List.dropWhile] at h
  | cons x xs ih =>
    intro a t h
    rw [List.dropWhile_cons] at h
    split at h
    · exact ih a t h
    · next hx =>
      cases h
      simpa using hx

theorem decodeChars_append (xs ys : List Char) :
    decodeChars (xs ++ ys) =
      (decodeChars xs).bind (fun a => (decodeChars ys).map (fun b => a ++ b)) := by
  induction xs with
  | nil =>
    cases h : decodeChars ys <;> simp [decodeChars, h]
  | cons c cs ih =>
    have hstep : ∀ zs : List Char, decodeChars (c :: zs) =
        match b58val c with
        | none => none
        | some d => (decodeChars zs).map (fun ds => d :: ds) := fun zs => rfl
    rw [List.cons_append, hstep (cs ++ ys), hstep cs, ih]
    cases b58val c with
    | none => rfl
    | some d =>
      cases decodeChars cs <;> cases decodeChars ys <;> rfl

theorem decodeChars_replicate_one (k : Nat) :
    decodeChars (List.replicate k '1') = some (List.replicate k 0) := by
  induction k with
  | zero => rfl
  | succ n ih =>
    have h1 : b58val '1' = some 0 := by decide
    simp [List.replicate_succ, decodeChars, h1, ih]

theorem b58val_b58chr : ∀ d : Fin 58, b58val (b58chr d.val) = some d.val := by
  decide

theorem decodeChars_map_b58chr :
    ∀ ds : List Nat, (∀ d ∈ ds, d < 58) →
      decodeChars (ds.map b58chr) = some ds := by
  intro ds
  induction ds with
  | nil => intro _; rfl
  | cons d t ih =>
    intro h
    have hd : d < 58 := h d (List.mem_cons_self d t)
    have h1 : b58val (b58chr d) = some d := b58val_b58chr ⟨d, hd⟩
    simp [List.map_cons, decodeChars, h1,
          ih (fun x hx => h x (List.mem_cons_of_mem d hx))]

theorem bs58Decode_eq_of_decode (s : String) (ds : List Nat)
    (h : decodeChars s.toList = some ds) :
    bs58Decode s = some (List.replicate (ds.takeWhile (fun d => d == 0)).length 0 ++
      natDigitsBE 256 (beVal 58 ds)) := by
  rw [bs58Decode, h]

theorem bs58_decode_encode (l : List Nat) (hlt : ∀ x ∈ l, x < 256) :
    bs58Decode (bs58Encode l) = some l := by
  have htr : l.takeWhile (fun x => x == 0) ++ l.dropWhile (fun x => x == 0) = l :=
    List.takeWhile_append_dropWhile _ _
  have ht : l.takeWhile (fun x => x == 0) =
      List.replicate (l.takeWhile (fun x => x == 0)).length 0 := by
    rw [List.eq_replicate_iff]
    refine ⟨rfl, fun b hb => ?_⟩
    have := List.mem_takeWhile_imp hb
    simpa using this
  have hN : beVal 256 l = beVal 256 (l.dropWhile (fun x => x == 0)) := by
    conv_lhs => rw [← htr, ht]
    rw [beVal_replicate_zero_append]
  rcases hdw : l.dropWhile (fun x => x == 0) with _ | ⟨a, rt⟩
  · -- all bytes are zero
    have hl : l = List.replicate (l.takeWhile (fun x => x == 0)).length 0 := by
      conv_lhs => rw [← htr, hdw]
      rw [List.append_nil]
      exact ht
    have hzero : beVal 256 l = 0 := by rw [hN, hdw]; rfl
    rw [bs58Encode, hzero]
    have hd58 : natDigitsBE 58 0 = [] := rfl
    rw [hd58, List.map_nil, List.append_nil]
    have hdc : decodeChars (String.mk
        (List.replicate (l.takeWhile (fun x => x == 0)).length '1')).toList =
        some (List.replicate (l.takeWhile (fun x => x == 0)).length 0) :=
      decodeChars_replicate_one _
    rw [bs58Decode_eq_of_decode _ _ hdc, takeWhile_replicate_zero]
    simp only [List.length_replicate]
    have hb0 : beVal 58 (List.replicate (l.takeWhile (fun x => x == 0)).length 0) = 0 := by
      have := beVal_replicate_zero_append 58 (l.takeWhile (fun x => x == 0)).length []
      simpa using this
    rw [hb0]
    have hd256 : natDigitsBE 256 0 = [] := rfl
    rw [hd256, List.append_nil, ← hl]
  · -- the value part is nonempty, with nonzero leading byte
    have ha : a ≠ 0 := by
      have := dropWhile_head_false (fun x => x == 0) l a rt hdw
      simpa using this
    have hr256 : ∀ x ∈ a :: rt, x < 256 := by
      intro x hx
      apply hlt
      rw [← htr, hdw]
      exact List.mem_append_right _ hx
    have hdig : Nat.digits 256 (beVal 256 (a :: rt)) = (a :: rt).reverse := by
      rw [beVal_eq_ofDigits]
      refine Nat.digits_ofDigits 256 (by omega) _
        (fun x hx => hr256 x (List.mem_reverse.mp hx)) ?_
      intro h
      rw [getLast_reverse_of_head (a :: rt) a rt rfl h]
      exact ha
    have hN0 : beVal 256 (a :: rt) ≠ 0 := by
      intro h0
      rw [h0, Nat.digits_zero] at hdig
      exact absurd hdig.symm (by simp)
    have hds : natDigitsBE 58 (beVal 256 (a :: rt)) =
        (Nat.digits 58 (beVal 256 (a :: rt))).reverse :=
      natDigitsBE_eq_digits 58 _ (by omega)
    -- the big-endian base-58 digit list is nonempty and starts with a nonzero digit
    rcases hds' : natDigitsBE 58 (beVal 256 (a :: rt)) with _ | ⟨d0, dt⟩
    · exfalso
      rw [hds] at hds'
      have : Nat.digits 58 (beVal 256 (a :: rt)) = [] := by
        have := congrArg List.reverse hds'
        simpa using this
      exact hN0 (by
        have h2 := Nat.digits_ne_nil_iff_ne_zero (b := 58) (n := beVal 256 (a :: rt))
        by_contra hne
        exact (h2.mpr hne) this)
    · have hd0 : d0 ≠ 0 := by
        have hne : Nat.digits 58 (beVal 256 (a :: rt)) ≠ [] :=
          Nat.digits_ne_nil_iff_ne_zero.mpr hN0
        have hlast := Nat.getLast_digit_ne_zero 58 hN0
        have h3 : (Nat.digits 58 (beVal 256 (a :: rt))).reverse = d0 :: dt := by
          rw [← hds, hds']
        have h4 : ((Nat.digits 58 (beVal 256 (a :: rt))).reverse).head? = some d0 := by
          rw [h3]; rfl
        rw [List.head?_reverse] at h4
        rw [List.getLast?_eq_getLast _ hne] at h4
        intro hz
        apply hlast
        injection h4 with h5
        rw [h5, hz]
      have hdlt : ∀ d ∈ d0 :: dt, d < 58 := by
        rw [← hds']
        exact natDigitsBE_lt 58 _ (by omega)
      have hdc : decodeChars (String.mk
          (List.replicate (l.takeWhile (fun x => x == 0)).length '1' ++
           (d0 :: dt).map b58chr)).toList =
          some (List.replicate (l.takeWhile (fun x => x == 0)).length 0 ++ (d0 :: dt)) := by
        have htl : (String.mk (List.replicate (l.takeWhile (fun x => x == 0)).length '1' ++
            (d0 :: dt).map b58chr)).toList =
            List.replicate (l.takeWhile (fun x => x == 0)).length '1' ++
            (d0 :: dt).map b58chr := rfl
        rw [htl, decodeChars_append, decodeChars_replicate_one,
            decodeChars_map_b58chr (d0 :: dt) hdlt]
        rfl
      rw [bs58Encode, hN, hdw, hds']
      rw [bs58Decode_eq_of_decode _ _ hdc]
      rw [takeWhile_replicate_zero_append _ d0 hd0 dt]
      simp only [List.length_replicate]
      rw [beVal_replicate_zero_append, ← hds', beVal_natDigitsBE 58 _ (by omega)]
      have h6 : natDigitsBE 256 (beVal 256 (a :: rt)) = a :: rt := by
        rw [natDigitsBE_eq_digits 256 _ (by omega), hdig, List.reverse_reverse]
      rw [h6]
      conv_rhs => rw [← htr, hdw]
      rw [← ht]

/-- C9: address parsing is a left inverse of address encoding, and a decoded
length other than 32 bytes (or an undecodable string) is an
`InvalidPublicKey`-classified failure. -/
theorem parse_pubkey_left_inverse :
    (∀ l : List Nat, l.length = 32 → (∀ x ∈ l, x < 256) →
        parse_pubkey (bs58Encode l) = .ok l) ∧
    (∀ s bytes, bs58Decode s = some bytes → bytes.length ≠ 32 →
        parse_pubkey s = .error (.InvalidPublicKey "string is the wrong size")) ∧
    (∀ s, bs58Decode s = none →
        parse_pubkey s = .error (.InvalidPublicKey "invalid base58 string")) := by
  refine ⟨fun l hlen hlt => ?_, fun s bytes hdec hlen => ?_, fun s hdec => ?_⟩
  · rw [parse_pubkey, bs58_decode_encode l hlt]
    simp [hlen]
  · rw [parse_pubkey, hdec]
    simp [hlen]
  · rw [parse_pubkey, hdec]

/-- Witness for C9 at concrete inputs: the all-zero address round-trips, and
the one-byte decode of `"2"` is rejected as the wrong size. -/
theorem parse_pubkey_left_inverse_witness :
    parse_pubkey (bs58Encode (List.replicate 32 0)) = .ok (List.replicate 32 0) ∧
    parse_pubkey "2" = .error (.InvalidPublicKey "string is the wrong size") :=
  ⟨parse_pubkey_left_inverse.1 (List.replicate 32 0) (by decide) (by decide),
   parse_pubkey_left_inverse.2.1 "2" [1] (by decide) (by decide)⟩

/-! ### Metadata model and translator -/

/-- `CreatorNif` of the source (host-runtime-facing creator description). -/
structure CreatorNif where
  address : String
  verified : Bool
  share : Nat
deriving DecidableEq

/-- `MetadataArgsNif` of the source (host-runtime-facing metadata
description). -/
structure MetadataArgsNif where
  name : String
  symbol : String
  uri : String
  seller_fee_basis_points : Nat
  primary_sale_happened : Bool
  is_mutable : Bool
  edition_nonce : Option Nat
  creators : List CreatorNif
  collection : Option String
  uses : Option Nat
deriving DecidableEq

/-- Modelled from the spec (§3): the wire-format use-method policy enum of
the external `mpl_bubblegum` types. -/
inductive UseMethod where
  | Burn
  | Multiple
  | Single
deriving DecidableEq

/-- Modelled from the spec (§3): the wire-format token program version enum. -/
inductive TokenProgramVersion where
  | Original
  | Token2022
deriving DecidableEq

/-- Modelled from the spec (§3): the wire-format token standard enum. -/
inductive TokenStandard where
  | NonFungible
  | FungibleAsset
  | Fungible
  | NonFungibleEdition
deriving DecidableEq

/-- Modelled from the spec (§3): wire-format `Creator`. -/
structure Creator where
  address : Pubkey
  verified : Bool
  share : Nat
deriving DecidableEq

/-- Modelled from the spec (§3): wire-format `Collection` reference. -/
structure Collection where
  verified : Bool
  key : Pubkey
deriving DecidableEq

/-- Modelled from the spec (§3): wire-format `Uses` (usage limit). -/
structure Uses where
  use_method : UseMethod
  remaining : Nat
  total : Nat
deriving DecidableEq

/-- Modelled from the spec (§3): wire-format `MetadataArgs` consumed by the
instruction builders. -/
structure MetadataArgs where
  name : String
  symbol : String
  uri : String
  seller_fee_basis_points : Nat
  primary_sale_happened : Bool
  is_mutable : Bool
  edition_nonce : Option Nat
  creators : List Creator
  collection : Option Collection
  uses : Option Uses
  token_program_version : TokenProgramVersion
  token_standard : Option TokenStandard
deriving DecidableEq

/-- `.unwrap()` on a pubkey-parsing `Result`, as in the source translator:
the value on success, a panic carrying the error display on failure. -/
def unwrapPubkey (r : Except BubblegumError Pubkey) : RunOutcome Pubkey :=
  match r with
  | .ok a => .ret a
  | .error e => .panicked ("called Result::unwrap() on an Err value: " ++ errMessage e)

/-- The creator loop of `convert_metadata_args`
(`args.creators.iter().map(|c| Creator { address: parse_pubkey(&c.address).unwrap(), .. }).collect()`):
each address is parsed and unwrapped in order; the first parse failure
panics. -/
def convertCreators : List CreatorNif → RunOutcome (List Creator)
  | [] => .ret []
  | c :: rest =>
    match unwrapPubkey (parse_pubkey c.address) with
    | .panicked m => .panicked m
    | .ret a =>
      match convertCreators rest with
      | .panicked m => .panicked m
      | .ret l => .ret ({ address := a, verified := c.verified, share := c.share } :: l)

/-- The collection branch of `convert_metadata_args`: a present collection
key is parsed and unwrapped, and `verified` is hard-set to `false`. -/
def convertCollection : Option String → RunOutcome (Option Collection)
  | some collection_str =>
    match unwrapPubkey (parse_pubkey collection_str) with
    | .panicked m => .panicked m
    | .ret k => .ret (some { verified := false, key := k })
  | none => .ret none

/-- `convert_metadata_args` of the source.  The returned `Result` is wrapped
in `RunOutcome` because the source unwraps the creator and collection
address parses, so a parse failure panics instead of producing the `Err`
that the signature advertises. -/
def convert_metadata_args (args : MetadataArgsNif) :
    RunOutcome (Except BubblegumError MetadataArgs) :=
  match convertCreators args.creators with
  | .panicked m => .panicked m
  | .ret creators =>
    match convertCollection args.collection with
    | .panicked m => .panicked m
    | .ret collection =>
      .ret (.ok
        { name := args.name
          symbol := args.symbol
          uri := args.uri
          seller_fee_basis_points := args.seller_fee_basis_points
          primary_sale_happened := args.primary_sale_happened
          is_mutable := args.is_mutable
          edition_nonce := args.edition_nonce
          creators := creators
          collection := collection
          uses := args.uses.map (fun uses =>
            { use_method := UseMethod.Multiple, remaining := uses, total := uses })
          token_program_version := TokenProgramVersion.Original
          token_standard := some TokenStandard.NonFungible })

/-- A concrete metadata description whose single creator has a malformed
address (`"0"` is outside the base-58 alphabet). -/
def badCreatorArgs : MetadataArgsNif :=
  { name := "Asset"
    symbol := "AST"
    uri := "https://example.com/meta.json"
    seller_fee_basis_points := 500
    primary_sale_happened := false
    is_mutable := true
    edition_nonce := none
    creators := [{ address := "0", verified := false, share := 100 }]
    collection := none
    uses := none }

/-- C1: on a creator whose address fails to parse, the metadata translation
of the source panics (aborts via `unwrap`) instead of returning the
propagated `InvalidPublicKey` error the spec requires, so the mint operation
cannot map it to a `Failure` value. -/
theorem convert_metadata_args_panics_on_bad_creator :
    convert_metadata_args badCreatorArgs =
      .panicked ("called Result::unwrap() on an Err value: " ++
        "Invalid public key: invalid base58 string") := by
  decide

/-- C4: whenever translation returns a metadata value, a usage-limit input of
`none` yields no usage-limit entry, and `some k` yields exactly the entry
with the fixed multiple-use method and `remaining = total = k`. -/
theorem convert_uses_mapping (args : MetadataArgsNif) (m : MetadataArgs)
    (h : convert_metadata_args args = .ret (.ok m)) :
    (args.uses = none → m.uses = none) ∧
    (∀ k, args.uses = some k →
      m.uses = some { use_method := UseMethod.Multiple, remaining := k, total := k }) := by
  rw [convert_metadata_args] at h
  rcases hc : convertCreators args.creators with mc | creators <;> rw [hc] at h
  · exact absurd h (by simp)
  rcases hcol : convertCollection args.collection with mcol | collection <;> rw [hcol] at h
  · exact absurd h (by simp)
  have hm : m.uses = args.uses.map (fun uses =>
      { use_method := UseMethod.Multiple, remaining := uses, total := uses }) := by
    cases h
    rfl
  constructor
  · intro h0; rw [hm, h0]; rfl
  · intro k hk; rw [hm, hk]; rfl

/-- Witness input for C4: no creators and no collection, usage-limit `some 7`. -/
def usesArgs : MetadataArgsNif :=
  { name := ""
    symbol := ""
    uri := ""
    seller_fee_basis_points := 0
    primary_sale_happened := false
    is_mutable := false
    edition_nonce := none
    creators := []
    collection := none
    uses := some 7 }

/-- Witness output for C4. -/
def usesOut : MetadataArgs :=
  { name := ""
    symbol := ""
    uri := ""
    seller_fee_basis_points := 0
    primary_sale_happened := false
    is_mutable := false
    edition_nonce := none
    creators := []
    collection := none
    uses := some { use_method := UseMethod.Multiple, remaining := 7, total := 7 }
    token_program_version := TokenProgramVersion.Original
    token_standard := some TokenStandard.NonFungible }

/-- Witness for C4 at the concrete input `uses = some 7`. -/
theorem convert_uses_mapping_witness :
    usesOut.uses = some { use_method := UseMethod.Multiple, remaining := 7, total := 7 } :=
  (convert_uses_mapping usesArgs usesOut rfl).2 7 rfl

theorem isOk_exists {e : Except BubblegumError Pubkey} (h : e.isOk = true) :
    ∃ a, e = .ok a := by
  cases e with
  | ok a => exact ⟨a, rfl⟩
  | error x => exact absurd h (by simp [Except.isOk, Except.toBool])

theorem convertCreators_all_ok :
    ∀ cs : List CreatorNif, (∀ c ∈ cs, (parse_pubkey c.address).isOk = true) →
      ∃ l, convertCreators cs = .ret l ∧
        List.Forall₂ (fun (c : CreatorNif) (k : Creator) =>
          parse_pubkey c.address = .ok k.address ∧
          k.verified = c.verified ∧ k.share = c.share) cs l := by
  intro cs
  induction cs with
  | nil => intro _; exact ⟨[], rfl, List.Forall₂.nil⟩
  | cons c rest ih =>
    intro h
    obtain ⟨a, ha⟩ := isOk_exists (h c (List.mem_cons_self c rest))
    obtain ⟨l, hl, hf⟩ := ih (fun x hx => h x (List.mem_cons_of_mem c hx))
    refine ⟨{ address := a, verified := c.verified, share := c.share } :: l, ?_, ?_⟩
    · simp [convertCreators, ha, unwrapPubkey, hl]
    · exact List.Forall₂.cons ⟨ha, rfl, rfl⟩ hf

/-- C5: when every creator address parses, translation succeeds and produces
exactly as many creator entries as the input, in input order, with `verified`
and `share` preserved and each address the parse of the input string.  (The
collection key, when present, must also parse, else the translation aborts —
spec §8 quantifies over valid metadata descriptions.) -/
theorem convert_creators_preserved (args : MetadataArgsNif)
    (hc : ∀ c ∈ args.creators, (parse_pubkey c.address).isOk = true)
    (hcol : ∀ s, args.collection = some s → (parse_pubkey s).isOk = true) :
    ∃ m, convert_metadata_args args = .ret (.ok m) ∧
      m.creators.length = args.creators.length ∧
      ∀ (i : Nat) (h1 : i < m.creators.length) (h2 : i < args.creators.length),
        parse_pubkey (args.creators.get ⟨i, h2⟩).address =
            .ok (m.creators.get ⟨i, h1⟩).address ∧
        (m.creators.get ⟨i, h1⟩).verified = (args.creators.get ⟨i, h2⟩).verified ∧
        (m.creators.get ⟨i, h1⟩).share = (args.creators.get ⟨i, h2⟩).share := by
  obtain ⟨l, hl, hf⟩ := convertCreators_all_ok args.creators hc
  obtain ⟨hlen, hget⟩ := List.forall₂_iff_get.mp hf
  obtain ⟨colv, hcolv⟩ : ∃ colv, convertCollection args.collection = .ret colv := by
    cases hco : args.collection with
    | none => exact ⟨none, rfl⟩
    | some s =>
      obtain ⟨a, ha⟩ := isOk_exists (hcol s hco)
      refine ⟨some { verified := false, key := a }, ?_⟩
      simp [convertCollection, ha, unwrapPubkey]
  refine ⟨{ name := args.name, symbol := args.symbol, uri := args.uri,
            seller_fee_basis_points := args.seller_fee_basis_points,
            primary_sale_happened := args.primary_sale_happened,
            is_mutable := args.is_mutable,
            edition_nonce := args.edition_nonce,
            creators := l, collection := colv,
            uses := args.uses.map (fun uses =>
              { use_method := UseMethod.Multiple, remaining := uses, total := uses }),
            token_program_version := TokenProgramVersion.Original,
            token_standard := some TokenStandard.NonFungible }, ?_, ?_, ?_⟩
  · rw [convert_metadata_args, hl, hcolv]
  · exact hlen.symm
  · intro i h1 h2
    exact hget i h2 h1

/-- Witness input for C5: one creator with a valid address. -/
def oneCreatorArgs : MetadataArgsNif :=
  { name := "Asset"
    symbol := "AST"
    uri := "u"
    seller_fee_basis_points := 0
    primary_sale_happened := false
    is_mutable := true
    edition_nonce := none
    creators := [{ address := "11111111111111111111111111111111",
                   verified := true, share := 50 }]
    collection := none
    uses := none }

/-- Witness for C5 at a concrete one-creator input. -/
theorem convert_creators_preserved_witness :
    ∃ m, convert_metadata_args oneCreatorArgs = .ret (.ok m) ∧
      m.creators.length = oneCreatorArgs.creators.length ∧
      ∀ (i : Nat) (h1 : i < m.creators.length)
          (h2 : i < oneCreatorArgs.creators.length),
        parse_pubkey (oneCreatorArgs.creators.get ⟨i, h2⟩).address =
            .ok (m.creators.get ⟨i, h1⟩).address ∧
        (m.creators.get ⟨i, h1⟩).verified =
            (oneCreatorArgs.creators.get ⟨i, h2⟩).verified ∧
        (m.creators.get ⟨i, h1⟩).share =
            (oneCreatorArgs.creators.get ⟨i, h2⟩).share :=
  convert_creators_preserved oneCreatorArgs (by decide)
    (fun s h => by simp [oneCreatorArgs] at h)

/-- C6: whenever translation returns a metadata value, a present collection
reference comes out with its key equal to the parsed input key and
`verified` hard-set to `false` (the input carries no verified flag at all, so
this holds for every input), and an absent one yields no collection entry. -/
theorem convert_collection_verified_false (args : MetadataArgsNif) (m : MetadataArgs)
    (h : convert_metadata_args args = .ret (.ok m)) :
    (args.collection = none → m.collection = none) ∧
    (∀ s a, args.collection = some s → parse_pubkey s = .ok a →
      m.collection = some { verified := false, key := a }) := by
  rw [convert_metadata_args] at h
  rcases hc : convertCreators args.creators with mc | creators <;> rw [hc] at h
  · exact absurd h (by simp)
  rcases hcol : convertCollection args.collection with mcol | collection <;> rw [hcol] at h
  · exact absurd h (by simp)
  have hm : m.collection = collection := by cases h; rfl
  constructor
  · intro h0
    rw [h0] at hcol
    simp [convertCollection] at hcol
    rw [hm, ← hcol]
  · intro s a hs ha
    rw [hs] at hcol
    simp [convertCollection, ha, unwrapPubkey] at hcol
    rw [hm, ← hcol]

/-- Witness input for C6: a valid collection key, no creators. -/
def collectionArgs : MetadataArgsNif :=
  { name := ""
    symbol := ""
    uri := ""
    seller_fee_basis_points := 0
    primary_sale_happened := false
    is_mutable := false
    edition_nonce := none
    creators := []
    collection := some "11111111111111111111111111111111"
    uses := none }

/-- Witness output for C6. -/
def collectionOut : MetadataArgs :=
  { name := ""
    symbol := ""
    uri := ""
    seller_fee_basis_points := 0
    primary_sale_happened := false
    is_mutable := false
    edition_nonce := none
    creators := []
    collection := some { verified := false, key := List.replicate 32 0 }
    uses := none
    token_program_version := TokenProgramVersion.Original
    token_standard := some TokenStandard.NonFungible }

/-- Witness for C6 at a concrete input with a present, valid collection key. -/
theorem convert_collection_verified_false_witness :
    collectionOut.collection = some { verified := false, key := List.replicate 32 0 } :=
  (convert_collection_verified_false collectionArgs collectionOut (by decide)).2
    "11111111111111111111111111111111" (List.replicate 32 0) rfl (by decide)

/-! ### Instructions, transactions and the submitter -/

/-- Modelled from the spec (§4.3): the three instruction builders are pure
functions from validated typed inputs to one instruction; each variant
records exactly the inputs the source passes to the corresponding external
builder (`CreateTreeConfigBuilder`, `MintToCollectionV1Builder`,
`TransferBuilder`). -/
inductive Instruction where
  | createTree (payer merkle_tree tree_creator : Pubkey)
      (max_depth max_buffer_size : Nat) (pub : Bool)
  | mintToCollectionV1
      (payer merkle_tree tree_creator_or_delegate collection_mint
       collection_authority : Pubkey) (metadata : MetadataArgs)
  | transferLeaf (merkle_tree : Pubkey) (leaf_owner : Pubkey × Bool)
      (new_leaf_owner : Pubkey)
deriving DecidableEq

/-- Modelled from the spec (§4.4): one signature over the assembled message
(instruction list, payer, ordering nonce), identified by the signing key. -/
structure Sig where
  signer : Pubkey
  signed_instructions : List Instruction
  signed_payer : Option Pubkey
  signed_blockhash : String
deriving DecidableEq

/-- Modelled from the spec (§3): a transaction is an ordered instruction
list bound to a payer, a recent-blockhash nonce and a set of signatures. -/
structure Transaction where
  instructions : List Instruction
  payer : Option Pubkey
  recent_blockhash : Option String
  signatures : List Sig
deriving DecidableEq

/-- `Transaction::new_with_payer`: instruction list and payer, unsigned. -/
def new_with_payer (instructions : List Instruction) (payer : Option Pubkey) :
    Transaction :=
  { instructions := instructions, payer := payer,
    recent_blockhash := none, signatures := [] }

/-- Modelled from the spec (§4.4 step 3): `Transaction::sign` binds the
nonce and produces one signature per signer, in the order given. -/
def Transaction.sign (tx : Transaction) (signers : List Keypair) (bh : String) :
    Transaction :=
  { tx with
    recent_blockhash := some bh,
    signatures := signers.map (fun k =>
      { signer := k.pubkey, signed_instructions := tx.instructions,
        signed_payer := tx.payer, signed_blockhash := bh }) }

/-- An observable interaction with the remote node. -/
inductive Event where
  | fetchBlockhash
  | submit (tx : Transaction)
deriving DecidableEq

/-- Modelled from the spec (§6): the remote ledger node as a
request/response oracle — the response to `get_latest_blockhash` and the
response to `send_and_confirm_transaction` for each transaction, each either
a value or the node error message. -/
structure RpcClient where
  latest_blockhash : Except String String
  send_and_confirm : Transaction → Except String String

/-- `send_transaction` of the source, with the two node interactions
recorded in an event trace.  The result is the signature string or the
classified error. -/
def send_transaction (client : RpcClient) (instructions : List Instruction)
    (payer : Keypair) (signers : List Keypair) :
    List Event × Except BubblegumError String :=
  match client.latest_blockhash with
  | .error e => ([Event.fetchBlockhash], .error (.SolanaClientError e))
  | .ok recent_blockhash =>
    let transaction := new_with_payer instructions (some payer.pubkey)
    let all_signers := payer :: signers
    let signed := transaction.sign all_signers recent_blockhash
    match client.send_and_confirm signed with
    | .error e => ([Event.fetchBlockhash, Event.submit signed],
                   .error (.TransactionError e))
    | .ok signature => ([Event.fetchBlockhash, Event.submit signed], .ok signature)

/-- The transaction `send_transaction` submits once the nonce fetch has
succeeded with `bh`. -/
def assembled_transaction (instructions : List Instruction) (payer : Keypair)
    (signers : List Keypair) (bh : String) : Transaction :=
  (new_with_payer instructions (some payer.pubkey)).sign (payer :: signers) bh

/-- C7: the submitted transaction is signed by the payer key first, then
each extra signer in the order given, and by no other key. -/
theorem send_transaction_signer_order (client : RpcClient)
    (instructions : List Instruction) (payer : Keypair) (signers : List Keypair)
    (bh : String) (h : client.latest_blockhash = .ok bh) :
    (assembled_transaction instructions payer signers bh).signatures =
      (payer :: signers).map (fun k =>
        { signer := k.pubkey, signed_instructions := instructions,
          signed_payer := some payer.pubkey, signed_blockhash := bh }) ∧
    (send_transaction client instructions payer signers).fst =
      [Event.fetchBlockhash,
       Event.submit (assembled_transaction instructions payer signers bh)] := by
  constructor
  · rfl
  · rw [send_transaction, h]
    show (match client.send_and_confirm (assembled_transaction instructions payer signers bh) with
      | Except.error e =>
          ([Event.fetchBlockhash,
            Event.submit (assembled_transaction instructions payer signers bh)],
           Except.error (BubblegumError.TransactionError e))
      | Except.ok s =>
          ([Event.fetchBlockhash,
            Event.submit (assembled_transaction instructions payer signers bh)],
           Except.ok s)).1 = _
    rcases client.send_and_confirm (assembled_transaction instructions payer signers bh)
      with e | s <;> rfl

/-- A node oracle that accepts everything. -/
def okClient : RpcClient :=
  { latest_blockhash := .ok "GHtk", send_and_confirm := fun _ => .ok "sigOk" }

/-- A node oracle whose blockhash fetch fails. -/
def downClient : RpcClient :=
  { latest_blockhash := .error "connection refused",
    send_and_confirm := fun _ => .ok "sigOk" }

/-- A node oracle that rejects every submitted transaction. -/
def rejectClient : RpcClient :=
  { latest_blockhash := .ok "GHtk",
    send_and_confirm := fun _ => .error "Transaction simulation failed" }

/-- A concrete signing key pair. -/
def payerKeypair : Keypair :=
  { secret := List.replicate 32 1, public := List.replicate 32 2 }

/-- A second concrete signing key pair. -/
def extraKeypair : Keypair :=
  { secret := List.replicate 32 3, public := List.replicate 32 4 }

/-- Witness for C7 at a concrete client, payer and one extra signer. -/
theorem send_transaction_signer_order_witness :
    (assembled_transaction [] payerKeypair [extraKeypair] "GHtk").signatures =
      ([payerKeypair, extraKeypair]).map (fun k =>
        { signer := k.pubkey, signed_instructions := [],
          signed_payer := some payerKeypair.pubkey, signed_blockhash := "GHtk" }) ∧
    (send_transaction okClient [] payerKeypair [extraKeypair]).fst =
      [Event.fetchBlockhash,
       Event.submit (assembled_transaction [] payerKeypair [extraKeypair] "GHtk")] :=
  send_transaction_signer_order okClient [] payerKeypair [extraKeypair] "GHtk" rfl

/-- C8: a blockhash-fetch failure is classified `SolanaClientError` and
returns with no submission (nothing assembled or signed is sent); a
send-and-confirm failure is classified `TransactionError` and carries the
node's rejection message verbatim. -/
theorem send_transaction_error_classification (client : RpcClient)
    (instructions : List Instruction) (payer : Keypair) (signers : List Keypair) :
    (∀ e, client.latest_blockhash = .error e →
      send_transaction client instructions payer signers =
        ([Event.fetchBlockhash], .error (.SolanaClientError e))) ∧
    (∀ bh e, client.latest_blockhash = .ok bh →
      client.send_and_confirm (assembled_transaction instructions payer signers bh) =
          .error e →
      send_transaction client instructions payer signers =
        ([Event.fetchBlockhash,
          Event.submit (assembled_transaction instructions payer signers bh)],
         .error (.TransactionError e))) := by
  constructor
  · intro e he
    rw [send_transaction, he]
  · intro bh e hbh hsend
    rw [send_transaction, hbh]
    show (match client.send_and_confirm (assembled_transaction instructions payer signers bh) with
      | Except.error err =>
          ([Event.fetchBlockhash,
            Event.submit (assembled_transaction instructions payer signers bh)],
           Except.error (BubblegumError.TransactionError err))
      | Except.ok s =>
          ([Event.fetchBlockhash,
            Event.submit (assembled_transaction instructions payer signers bh)],
           Except.ok s)) = _
    rw [hsend]

/-- Witness for C8: the two failure classifications at concrete clients. -/
theorem send_transaction_error_classification_witness :
    send_transaction downClient [] payerKeypair [] =
      ([Event.fetchBlockhash], .error (.SolanaClientError "connection refused")) ∧
    send_transaction rejectClient [] payerKeypair [] =
      ([Event.fetchBlockhash,
        Event.submit (assembled_transaction [] payerKeypair [] "GHtk")],
       .error (.TransactionError "Transaction simulation failed")) :=
  ⟨(send_transaction_error_classification downClient [] payerKeypair []).1
      "connection refused" rfl,
   (send_transaction_error_classification rejectClient [] payerKeypair []).2
      "GHtk" "Transaction simulation failed" rfl rfl⟩

/-! ### Operation orchestrators -/

/-- The host-runtime term an operation returns (spec §6): a success map of
named string fields, the `(error, msg)` tuple of the early validation
returns, or the `%{error => msg}` map of the submission-failure branch. -/
inductive NifTerm where
  | okResult (fields : List (String × String))
  | errTuple (msg : String)
  | errMap (msg : String)
deriving DecidableEq

/-- `create_tree_config` of the source.  `net` is the remote-node oracle
standing for the client built from `rpc_url`, and `tree_keypair` is the
fresh keypair the source generates locally (spec §5: a call-local value,
passed explicitly here).  The first trace component records the network
interactions of the run. -/
def create_tree_config (net : RpcClient) (tree_keypair : Keypair)
    (args : String × Nat × Nat × Nat × Bool × String) :
    List Event × RunOutcome NifTerm :=
  let (payer_keypair_bs58, max_depth, max_buffer_size, _canopy_depth, public, _rpc_url) := args
  match bs58IntoVec payer_keypair_bs58 with
  | .error e => ([], .ret (.errTuple ("Invalid bs58 encoding: " ++ e)))
  | .ok payer_bytes =>
    match parse_keypair payer_bytes with
    | .error e => ([], .ret (.errTuple (errMessage e)))
    | .ok payer =>
      let tree_pubkey := tree_keypair.pubkey
      let create_tree_ix := Instruction.createTree payer.pubkey tree_pubkey
        payer.pubkey max_depth max_buffer_size public
      match send_transaction net [create_tree_ix] payer [tree_keypair] with
      | (events, .ok signature) =>
          (events, .ret (.okResult [("tree_pubkey", bs58Encode tree_pubkey),
                                    ("signature", signature)]))
      | (events, .error e) => (events, .ret (.errMap (errMessage e)))

/-- `mint_to_collection_v1` of the source.  A panic inside the metadata
translation propagates as the panicked outcome of the whole call. -/
def mint_to_collection_v1 (net : RpcClient)
    (args : String × String × String × MetadataArgsNif × String) :
    List Event × RunOutcome NifTerm :=
  let (payer_keypair_bs58, tree_pubkey_str, collection_pubkey_str, metadata_args,
       _rpc_url) := args
  match bs58IntoVec payer_keypair_bs58 with
  | .error e => ([], .ret (.errTuple ("Invalid bs58 encoding: " ++ e)))
  | .ok payer_bytes =>
    match parse_keypair payer_bytes with
    | .error e => ([], .ret (.errTuple (errMessage e)))
    | .ok payer =>
      match parse_pubkey tree_pubkey_str with
      | .error e => ([], .ret (.errTuple (errMessage e)))
      | .ok tree_pubkey =>
        match parse_pubkey collection_pubkey_str with
        | .error e => ([], .ret (.errTuple (errMessage e)))
        | .ok collection_pubkey =>
          match convert_metadata_args metadata_args with
          | .panicked m => ([], .panicked m)
          | .ret (.error e) => ([], .ret (.errTuple (errMessage e)))
          | .ret (.ok metadata) =>
            let mint_ix := Instruction.mintToCollectionV1 payer.pubkey tree_pubkey
              payer.pubkey collection_pubkey payer.pubkey metadata
            match send_transaction net [mint_ix] payer [] with
            | (events, .ok signature) =>
                (events, .ret (.okResult [("signature", signature)]))
            | (events, .error e) => (events, .ret (.errMap (errMessage e)))

/-- `transfer` of the source.  The asset id is parsed (a failure is an early
return) and then discarded: the built instruction uses only the tree, the
leaf owner and the new owner. -/
def transfer (net : RpcClient)
    (args : String × String × String × String × String × String) :
    List Event × RunOutcome NifTerm :=
  let (payer_keypair_bs58, tree_pubkey_str, leaf_owner_str, new_owner_str,
       asset_id_str, _rpc_url) := args
  match bs58IntoVec payer_keypair_bs58 with
  | .error e => ([], .ret (.errTuple ("Invalid bs58 encoding: " ++ e)))
  | .ok payer_bytes =>
    match parse_keypair payer_bytes with
    | .error e => ([], .ret (.errTuple (errMessage e)))
    | .ok payer =>
      match parse_pubkey tree_pubkey_str with
      | .error e => ([], .ret (.errTuple (errMessage e)))
      | .ok tree_pubkey =>
        match parse_pubkey leaf_owner_str with
        | .error e => ([], .ret (.errTuple (errMessage e)))
        | .ok leaf_owner =>
          match parse_pubkey new_owner_str with
          | .error e => ([], .ret (.errTuple (errMessage e)))
          | .ok new_owner =>
            match parse_pubkey asset_id_str with
            | .error e => ([], .ret (.errTuple (errMessage e)))
            | .ok _asset_id =>
              let transfer_ix := Instruction.transferLeaf tree_pubkey
                (leaf_owner, false) new_owner
              match send_transaction net [transfer_ix] payer [] with
              | (events, .ok signature) =>
                  (events, .ret (.okResult [("signature", signature)]))
              | (events, .error e) => (events, .ret (.errMap (errMessage e)))

/-- C2: two transfer invocations that differ only in the asset id, both
asset ids being valid addresses, produce identical outputs — in particular
the same submitted instruction bytes: the instruction depends only on the
tree, the leaf owner and the new owner. -/
theorem transfer_independent_of_asset_id (net : RpcClient)
    (payer tree owner newOwner a1 a2 url : String)
    (h1 : (parse_pubkey a1).isOk = true) (h2 : (parse_pubkey a2).isOk = true) :
    transfer net (payer, tree, owner, newOwner, a1, url) =
      transfer net (payer, tree, owner, newOwner, a2, url) := by
  obtain ⟨v1, hv1⟩ := isOk_exists h1
  obtain ⟨v2, hv2⟩ := isOk_exists h2
  simp only [transfer, hv1, hv2]

/-- Witness for C2 at two distinct concrete valid asset ids. -/
theorem transfer_independent_of_asset_id_witness :
    transfer okClient ("p", "t", "o", "n", "11111111111111111111111111111111", "u") =
      transfer okClient ("p", "t", "o", "n", "11111111111111111111111111111112", "u") :=
  transfer_independent_of_asset_id okClient "p" "t" "o" "n"
    "11111111111111111111111111111111" "11111111111111111111111111111112" "u"
    (by decide) (by decide)

/-- A metadata description whose collection key is malformed (`"0"` is not
in the base-58 alphabet). -/
def badCollectionArgs : MetadataArgsNif :=
  { name := "Asset"
    symbol := "AST"
    uri := "u"
    seller_fee_basis_points := 0
    primary_sale_happened := false
    is_mutable := true
    edition_nonce := none
    creators := []
    collection := some "0"
    uses := none }

set_option maxRecDepth 10000 in
/-- C3 (failing case): at a mint invocation in which an address parse fails
(the collection key inside the metadata), the operation indeed performs no
network interaction and builds no instruction (empty trace), but it does not
return a Failure value: it panics inside the metadata translation. -/
theorem mint_bad_metadata_collection_key_panics :
    mint_to_collection_v1 okClient
      ("1111111111111111111111111111111111111111111111111111111111111111",
       "11111111111111111111111111111111",
       "11111111111111111111111111111111",
       badCollectionArgs,
       "http://node") =
      ([], .panicked ("called Result::unwrap() on an Err value: " ++
        "Invalid public key: invalid base58 string")) := by
  decide

/-- C10: the canopy-depth input (fourth tuple element) has no effect: two
create-tree invocations differing only in it — same inputs otherwise, same
generated tree keypair, same remote-node oracle — return identical traces
and results. -/
theorem create_tree_ignores_canopy (net : RpcClient) (tree_keypair : Keypair)
    (payer : String) (max_depth max_buffer_size canopy1 canopy2 : Nat)
    (pub : Bool) (url : String) :
    create_tree_config net tree_keypair
        (payer, max_depth, max_buffer_size, canopy1, pub, url) =
      create_tree_config net tree_keypair
        (payer, max_depth, max_buffer_size, canopy2, pub, url) := rfl

end Bubblegum
